import Mathlib

/-!
Verification development for the yambot chat-automation backend.

The Rust sources are embedded shallowly:
* Rust `&str` text is modelled as `Str := List Char`; `str::len` (UTF-8 byte
  count in Rust) is modelled as the character count, which coincides with the
  byte count on ASCII text.
* `str::split_whitespace` and `str::trim` are modelled character-wise with
  `Char.isWhitespace` as the whitespace predicate.
* Stateful code (`TTSQueue`, the player loop in `main.rs`) is modelled by
  explicit state passing over a state record; the asynchronous collaborators
  (synthesis provider, audio device, concurrent skip requests) are modelled
  as oracle parameters, matching the spec's external-interface contracts.
-/

set_option maxRecDepth 20000

namespace Yambot

/-- Rust `&str`, modelled as a list of characters. -/
abbrev Str := List Char

/-- `const MAX_TEXT_LENGTH: usize = 200;` from `src/backend/tts/service.rs`. -/
def MAX_TEXT_LENGTH : Nat := 200

/-- Accumulator-based splitter implementing Rust `str::split_whitespace`:
maximal runs of non-whitespace characters, in order, empties dropped.
`acc` holds the characters of the word currently being read, reversed. -/
def splitWhitespaceAux : Str → Str → List Str
  | [], acc => if acc = [] then [] else [acc.reverse]
  | c :: cs, acc =>
    if c.isWhitespace then
      if acc = [] then splitWhitespaceAux cs []
      else acc.reverse :: splitWhitespaceAux cs []
    else splitWhitespaceAux cs (c :: acc)

/-- Rust `text.split_whitespace()` as a list of words. -/
def splitWhitespace (s : Str) : List Str := splitWhitespaceAux s []

/-- Rust `str::trim_start`. -/
def trimStart (s : Str) : Str := s.dropWhile Char.isWhitespace

/-- Rust `str::trim_end`. -/
def trimEnd (s : Str) : Str := (s.reverse.dropWhile Char.isWhitespace).reverse

/-- Rust `str::trim`: drop leading and trailing whitespace. -/
def trim (s : Str) : Str := trimEnd (trimStart s)

/-- Loop body of `TTSService::split_text` (`src/backend/tts/service.rs:71-82`),
acting on the state `(chunks, current_chunk)` for one `word`:
flush `current_chunk` (trimmed) when adding the word would exceed
`MAX_TEXT_LENGTH`, then append the word, space-separated. -/
def splitTextStep (st : List Str × Str) (word : Str) : List Str × Str :=
  let flushed : List Str × Str :=
    if MAX_TEXT_LENGTH < st.2.length + word.length + 1 then
      if st.2 = [] then st else (st.1 ++ [trim st.2], [])
    else st
  let withSpace : Str := if flushed.2 = [] then flushed.2 else flushed.2 ++ [' ']
  (flushed.1, withSpace ++ word)

/-- `TTSService::split_text` (`src/backend/tts/service.rs:63-89`): a text of
length at most `MAX_TEXT_LENGTH` is returned as the single chunk `[text]`;
otherwise the words are greedily packed into chunks via `splitTextStep` and
the trailing chunk, if nonempty, is pushed trimmed. -/
def split_text (text : Str) : List Str :=
  if text.length ≤ MAX_TEXT_LENGTH then [text]
  else
    let st := (splitWhitespace text).foldl splitTextStep ([], [])
    if st.2 = [] then st.1 else st.1 ++ [trim st.2]

/-- A chunk respects the length bound, or is one oversized word of `W`. -/
def chunkOK (W : List Str) (c : Str) : Prop :=
  c.length ≤ MAX_TEXT_LENGTH ∨ (c ∈ W ∧ MAX_TEXT_LENGTH < c.length)

/-- Invariant for the `split_text` accumulator `current_chunk`: it is empty,
or has non-whitespace edge characters and satisfies `chunkOK`. -/
def currentOK (W : List Str) (c : Str) : Prop :=
  c = [] ∨ ((∀ a, c.head? = some a → a.isWhitespace = false) ∧
            (∀ a, c.getLast? = some a → a.isWhitespace = false) ∧ chunkOK W c)

/-- The `subs`/`vips`/`mods` boolean permission flags of `config.tts.permited_roles`
and `config.sfx.permited_roles` (the shape consumed by `main.rs:321-330` and
`main.rs:504-512`; the on-disk representation lives in the configuration
collaborator). -/
structure PermitedRoles where
  subs : Bool
  vips : Bool
  mods : Bool
  deriving DecidableEq

/-- The badge closure of the permission checks in `handle_twitch_messages`
(`main.rs:321-330` for TTS and `main.rs:504-512` for SFX — both have the
identical body): `(set_id == "subscriber" || set_id == "founder") && subs
|| set_id == "vip" && vips || set_id == "moderator" && mods
|| set_id == "broadcaster"`. -/
def badge_allows (roles : PermitedRoles) (set_id : String) : Bool :=
  (set_id == "subscriber" || set_id == "founder") && roles.subs ||
    set_id == "vip" && roles.vips ||
    set_id == "moderator" && roles.mods ||
    set_id == "broadcaster"

/-- `msg.badges.iter().any(|badge| ...)`: the user's badge set-ids are
modelled as the list of `set_id` strings. -/
def has_permission (badges : List String) (roles : PermitedRoles) : Bool :=
  badges.any (badge_allows roles)

/-- `TTSRequest` (`src/backend/tts/queue.rs:8-14`); `chrono::DateTime<Utc>`
is modelled as a `Nat` tick count. -/
structure TTSRequest where
  id : String
  username : String
  language : String
  text : Str
  timestamp : Nat
  deriving DecidableEq

/-- `TTSAudioChunk`: opaque synthesized audio bytes (`Vec<u8>` modelled as a
list of byte values). Exported by `src/backend/tts/mod.rs` and constructed in
`main.rs:394-396`. -/
structure TTSAudioChunk where
  audio_data : List Nat
  deriving DecidableEq

/-- `TTSQueueItem` as used throughout `main.rs` (constructed at
`main.rs:392-397`, consumed by `tts_player_task`): a request plus its ordered
audio chunks. The checked-in `queue.rs` still carries an older `file_paths`
payload for this struct; the queue operations are payload-agnostic, and the
rest of the crate (the `mod.rs` re-export of `TTSAudioChunk`, every
constructor and consumer in `main.rs`) uses the `audio_chunks` payload
embedded here. -/
structure TTSQueueItem where
  request : TTSRequest
  audio_chunks : List TTSAudioChunk
  deriving DecidableEq

/-- The shared state behind `TTSQueue` (`src/backend/tts/queue.rs:22-26`):
the pending `VecDeque` (head first) and the ignore list. The
`currently_playing` slot and the atomic `skip` cancellation flag are not in
the checked-in `queue.rs`; they are modelled from the spec (§4.4: the queue
also holds an optional currently-playing item and a single cancellation
flag), matching their uses in `main.rs` (`set_currently_playing`,
`get_skip_flag`, `clear_skip`, `get_all_with_current`). -/
structure TTSQueueState where
  queue : List TTSQueueItem
  ignored_users : List String
  currently_playing : Option TTSQueueItem
  skip : Bool
  deriving DecidableEq

/-- `TTSQueue::new` (`queue.rs:29-34`), with the spec-modelled slots empty. -/
def TTSQueueState.new : TTSQueueState :=
  { queue := [], ignored_users := [], currently_playing := none, skip := false }

/-- `TTSQueue::add` (`queue.rs:36-39`): `push_back`. -/
def add (s : TTSQueueState) (item : TTSQueueItem) : TTSQueueState :=
  { s with queue := s.queue ++ [item] }

/-- `TTSQueue::pop` (`queue.rs:41-44`): `pop_front`, returning the removed
head (if any) together with the updated state. -/
def pop (s : TTSQueueState) : Option TTSQueueItem × TTSQueueState :=
  match s.queue with
  | [] => (none, s)
  | x :: xs => (some x, { s with queue := xs })

/-- `TTSQueue::skip_current` (`queue.rs:66-68`): `self.pop().await`. -/
def skip_current (s : TTSQueueState) : Option TTSQueueItem × TTSQueueState :=
  pop s

/-- `TTSQueue::is_user_ignored` (`queue.rs:82-85`): membership in the ignore
list. -/
def is_user_ignored (s : TTSQueueState) (username : String) : Bool :=
  s.ignored_users.contains username

/-- Modelled from the spec: `set_currently_playing(Option<item>)` (§4.4),
called from `tts_player_task` (`main.rs:997` and `main.rs:1100`) but absent
from the checked-in `queue.rs`. -/
def set_currently_playing (s : TTSQueueState) (o : Option TTSQueueItem) : TTSQueueState :=
  { s with currently_playing := o }

/-- Modelled from the spec: `clear_skip` (§4.4's monotonic cancellation flag),
called from `tts_player_task` (`main.rs:1097`) but absent from the checked-in
`queue.rs`: stores `false` into the atomic skip flag. -/
def clear_skip (s : TTSQueueState) : TTSQueueState :=
  { s with skip := false }

/-- Modelled from the spec: `request_skip` (§4.4) sets the cancellation flag. -/
def request_skip (s : TTSQueueState) : TTSQueueState :=
  { s with skip := true }

/-- Modelled from the spec: `get_all_with_current` (§4.4
`snapshot_with_current`), used at `main.rs:1000` and `main.rs:1103`:
currently-playing (if any) followed by the pending items. -/
def get_all_with_current (s : TTSQueueState) : List TTSQueueItem :=
  match s.currently_playing with
  | some it => it :: s.queue
  | none => s.queue

/-- Repeated `pop` calls: the list of items returned by `n` successive pops
(stopping early if the queue empties). -/
def pops : TTSQueueState → Nat → List TTSQueueItem
  | _, 0 => []
  | s, n + 1 =>
    match pop s with
    | (none, _) => []
    | (some x, s1) => x :: pops s1 n

/-- Observable actions of the TTS pipeline task spawned at `main.rs:354-430`. -/
inductive PipelineEvent where
  | pushItem (item : TTSQueueItem)
  | emitQueueSnapshot
  | logChunkError (index : Nat)
  | notifyUIError (index : Nat)
  deriving DecidableEq

/-- Per-chunk id (`main.rs:365-369`): `"{request.id}-{chunk_index}"` when the
request split into more than one chunk, the request id itself otherwise. -/
def chunkId (reqId : String) (chunk_count index : Nat) : String :=
  if 1 < chunk_count then reqId ++ "-" ++ toString index else reqId

/-- The `TTSQueueItem` built for one successfully synthesized chunk
(`main.rs:380-397`): a chunk-level request and a single audio chunk. -/
def mkChunkItem (req : TTSRequest) (chunk_count chunk_index : Nat)
    (text_chunk : Str) (audio_data : List Nat) : TTSQueueItem :=
  { request :=
      { id := chunkId req.id chunk_count chunk_index
        username := req.username
        language := req.language
        text := text_chunk
        timestamp := req.timestamp }
    audio_chunks := [{ audio_data := audio_data }] }

/-- The chunk loop of the pipeline task (`main.rs:361-429`), processing the
chunks from index `i` on. `fetch` is the external synthesis provider
(`fetch_tts_audio`, an external collaborator per spec §6: audio bytes or an
error), given per chunk index. Returns the queue items pushed (in push order)
and the observable event trace. -/
def ttsPipelineGo (req : TTSRequest) (chunk_count : Nat)
    (fetch : Nat → Option (List Nat)) : Nat → List Str → List TTSQueueItem × List PipelineEvent
  | _, [] => ([], [])
  | i, c :: cs =>
    let rest := ttsPipelineGo req chunk_count fetch (i + 1) cs
    match fetch i with
    | some audio_data =>
      let item := mkChunkItem req chunk_count i c audio_data
      (item :: rest.1,
        PipelineEvent.pushItem item :: PipelineEvent.emitQueueSnapshot :: rest.2)
    | none =>
      (rest.1, PipelineEvent.logChunkError i :: PipelineEvent.notifyUIError i :: rest.2)

/-- The pipeline task for one accepted TTS request (`main.rs:354-430`):
split the text, then process each chunk in order. -/
def ttsPipeline (req : TTSRequest) (fetch : Nat → Option (List Nat)) :
    List TTSQueueItem × List PipelineEvent :=
  ttsPipelineGo req (split_text req.text).length fetch 0 (split_text req.text)

/-- Observable actions of one `tts_player_task` loop iteration
(`main.rs:987-1119`). -/
inductive SchedEvent where
  | logIgnored (username : String)
  | setPlaying (item : TTSQueueItem)
  | emitSnapshot (items : List TTSQueueItem)
  | streamOpenFailed
  | chunkStarted (i : Nat)
  | chunkFinished (i : Nat)
  | chunkDecodeFailed (i : Nat)
  | skipDetected (i : Nat)
  | clearSkipFlag
  | clearPlaying
  deriving DecidableEq

/-- Oracles for the external collaborators of one playback iteration:
whether `rodio` opens the output stream (`main.rs:1034`), whether the decoder
accepts chunk `i` (`main.rs:1051`), and whether a concurrent skip request is
observed at chunk `i`'s pre-check (`main.rs:1045`) or at some completion poll
during chunk `i` (`main.rs:1058`). -/
structure PlaybackEnv where
  streamOpens : Bool
  decodeOk : Nat → Bool
  skipPre : Nat → Bool
  skipDuring : Nat → Bool

/-- The chunk playback loop of the `spawn_blocking` closure
(`main.rs:1043-1079`): `flag0` is the skip flag's value when the iteration
began (a set flag persists until the scheduler clears it); `i` is the index
of the next chunk, `k` the number of chunks left. -/
def playChunks (env : PlaybackEnv) (flag0 : Bool) : Nat → Nat → List SchedEvent
  | _, 0 => []
  | i, k + 1 =>
    if flag0 || env.skipPre i then [SchedEvent.skipDetected i]
    else if env.decodeOk i then
      if env.skipDuring i then [SchedEvent.chunkStarted i, SchedEvent.skipDetected i]
      else SchedEvent.chunkStarted i :: SchedEvent.chunkFinished i ::
        playChunks env flag0 (i + 1) k
    else SchedEvent.chunkDecodeFailed i :: playChunks env flag0 (i + 1) k

/-- One iteration of the `tts_player_task` loop (`main.rs:987-1119`):
pop; discard if the requester is ignored; otherwise publish
currently-playing, emit a snapshot, play the chunks (all match arms of the
`spawn_blocking` result fall through), clear the skip flag, clear
currently-playing, and emit a final snapshot. -/
def ttsPlayerStep (s : TTSQueueState) (env : PlaybackEnv) :
    TTSQueueState × List SchedEvent :=
  match pop s with
  | (none, s1) => (s1, [])
  | (some item, s1) =>
    if is_user_ignored s1 item.request.username then
      (s1, [SchedEvent.logIgnored item.request.username])
    else
      let s2 := set_currently_playing s1 (some item)
      let evPlay :=
        if env.streamOpens then playChunks env s2.skip 0 item.audio_chunks.length
        else [SchedEvent.streamOpenFailed]
      let s3 := set_currently_playing (clear_skip s2) none
      (s3,
        SchedEvent.setPlaying item :: SchedEvent.emitSnapshot (get_all_with_current s2) ::
          evPlay ++
            [SchedEvent.clearSkipFlag, SchedEvent.clearPlaying,
              SchedEvent.emitSnapshot (get_all_with_current s3)])

/-! Concrete inputs used to evaluate the model on closed instances. -/

/-- A 301-character text that `split_text` splits into two chunks. -/
def twoChunkText : Str := List.replicate 150 'a' ++ ' ' :: List.replicate 150 'b'

/-- A concrete accepted TTS request whose text splits into two chunks. -/
def twoChunkReq : TTSRequest :=
  { id := "m1", username := "alice", language := "en", text := twoChunkText, timestamp := 0 }

/-- A synthesis provider that succeeds on every chunk. -/
def fetchAlways : Nat → Option (List Nat) := fun _ => some [7]

/-- A synthesis provider that fails on chunk 0 and succeeds afterwards. -/
def fetchFailFirst : Nat → Option (List Nat) := fun i => if i = 0 then none else some [7]

/-- Concrete queue item (requester `"alice"`). -/
def itemA : TTSQueueItem :=
  { request := { id := "A", username := "alice", language := "en", text := ['a'], timestamp := 0 }
    audio_chunks := [{ audio_data := [1] }] }

/-- Concrete queue item (requester `"bob"`). -/
def itemB : TTSQueueItem :=
  { request := { id := "B", username := "bob", language := "en", text := ['b'], timestamp := 1 }
    audio_chunks := [{ audio_data := [2] }] }

/-- Concrete queue item (requester `"carol"`). -/
def itemC : TTSQueueItem :=
  { request := { id := "C", username := "carol", language := "en", text := ['c'], timestamp := 2 }
    audio_chunks := [{ audio_data := [3] }] }

/-- A playback environment where everything succeeds and no skip arrives. -/
def quietEnv : PlaybackEnv :=
  { streamOpens := true, decodeOk := fun _ => true,
    skipPre := fun _ => false, skipDuring := fun _ => false }

/-- A scheduler state holding two pending items, nobody ignored. -/
def twoItemState : TTSQueueState :=
  { queue := [itemA, itemB], ignored_users := [], currently_playing := none, skip := false }

/-- A scheduler state whose head item's requester is on the ignore list. -/
def ignoredHeadState : TTSQueueState :=
  { queue := [itemA, itemB], ignored_users := ["alice"], currently_playing := none,
    skip := false }

theorem splitWhitespaceAux_words (s : Str) :
    ∀ (acc : Str), (∀ c ∈ acc, c.isWhitespace = false) →
      ∀ w ∈ splitWhitespaceAux s acc, w ≠ [] ∧ ∀ c ∈ w, c.isWhitespace = false := by
  induction s with
  | nil =>
    intro acc hacc w hw
    by_cases h : acc = []
    · simp [splitWhitespaceAux, h] at hw
    · simp only [splitWhitespaceAux, if_neg h, List.mem_singleton] at hw
      subst hw
      refine ⟨by simpa using h, ?_⟩
      intro c hc
      exact hacc c (List.mem_reverse.mp hc)
  | cons c cs ih =>
    intro acc hacc w hw
    by_cases hws : c.isWhitespace
    · by_cases h : acc = []
      · rw [splitWhitespaceAux, if_pos hws, if_pos h] at hw
        exact ih [] (by simp) w hw
      · rw [splitWhitespaceAux, if_pos hws, if_neg h] at hw
        rcases List.mem_cons.mp hw with hw1 | hw1
        · subst hw1
          refine ⟨by simpa using h, ?_⟩
          intro a ha
          exact hacc a (List.mem_reverse.mp ha)
        · exact ih [] (by simp) w hw1
    · rw [splitWhitespaceAux, if_neg hws] at hw
      refine ih (c :: acc) ?_ w hw
      intro a ha
      rcases List.mem_cons.mp ha with rfl | ha
      · simpa using hws
      · exact hacc a ha

/-- Every word produced by `splitWhitespace` is nonempty and contains no
whitespace character, mirroring Rust `str::split_whitespace`. -/
theorem splitWhitespace_words (s : Str) :
    ∀ w ∈ splitWhitespace s, w ≠ [] ∧ ∀ c ∈ w, c.isWhitespace = false :=
  splitWhitespaceAux_words s [] (by simp)

/-- `trim` is the identity on a string whose first and last characters are
not whitespace. -/
theorem trim_eq_self (s : Str)
    (h1 : ∀ a, s.head? = some a → a.isWhitespace = false)
    (h2 : ∀ a, s.getLast? = some a → a.isWhitespace = false) :
    trim s = s := by
  have hstart : trimStart s = s := by
    cases s with
    | nil => rfl
    | cons a l =>
      have ha : a.isWhitespace = false := h1 a rfl
      simp [trimStart, List.dropWhile_cons, ha]
  rw [trim, hstart]
  cases hrev : s.reverse with
  | nil =>
    have hs : s = [] := List.reverse_eq_nil_iff.mp hrev
    subst hs
    rfl
  | cons a l =>
    have ha : a.isWhitespace = false := by
      apply h2
      rw [← List.head?_reverse, hrev, List.head?_cons]
    have hte : trimEnd s = (a :: l).reverse := by
      simp [trimEnd, hrev, List.dropWhile_cons, ha]
    rw [hte, ← hrev, List.reverse_reverse]

theorem splitTextStep_preserves (W : List Str) (chunks : List Str) (current : Str) (w : Str)
    (hw : w ≠ [] ∧ (∀ c ∈ w, c.isWhitespace = false) ∧ w ∈ W)
    (hc : ∀ c ∈ chunks, chunkOK W c) (hcur : currentOK W current) :
    (∀ c ∈ (splitTextStep (chunks, current) w).1, chunkOK W c) ∧
      currentOK W (splitTextStep (chunks, current) w).2 := by
  obtain ⟨hwne, hwchars, hwW⟩ := hw
  have hwcur : currentOK W w := by
    refine Or.inr ⟨?_, ?_, ?_⟩
    · intro a ha
      exact hwchars a (List.mem_of_mem_head? (by simp [ha]))
    · intro a ha
      exact hwchars a (List.mem_of_mem_getLast? (by simp [ha]))
    · rcases le_or_lt w.length MAX_TEXT_LENGTH with h | h
      · exact Or.inl h
      · exact Or.inr ⟨hwW, h⟩
  by_cases h0 : current = []
  · subst h0
    have hstep : splitTextStep (chunks, ([] : Str)) w = (chunks, w) := by
      by_cases hlen : MAX_TEXT_LENGTH < ([] : Str).length + w.length + 1 <;>
        simp [splitTextStep, hlen]
    rw [hstep]
    exact ⟨hc, hwcur⟩
  · rcases hcur with h0' | ⟨hh, hl, hck⟩
    · exact absurd h0' h0
    by_cases hlen : MAX_TEXT_LENGTH < current.length + w.length + 1
    · have hstep : splitTextStep (chunks, current) w = (chunks ++ [trim current], w) := by
        simp [splitTextStep, hlen, h0]
      rw [hstep]
      refine ⟨?_, hwcur⟩
      intro c hcmem
      rcases List.mem_append.mp hcmem with hcm | hcm
      · exact hc c hcm
      · have hcm' : c = trim current := by simpa using hcm
        subst hcm'
        rw [trim_eq_self current hh hl]
        exact hck
    · have hstep : splitTextStep (chunks, current) w = (chunks, (current ++ [' ']) ++ w) := by
        simp [splitTextStep, hlen, h0]
      rw [hstep]
      refine ⟨hc, Or.inr ⟨?_, ?_, Or.inl ?_⟩⟩
      · cases current with
        | nil => exact absurd rfl h0
        | cons b bs =>
          intro a ha
          simp only [List.cons_append, List.head?_cons, Option.some.injEq] at ha
          subst ha
          exact hh b rfl
      · intro a ha
        obtain ⟨wl, hwl⟩ : ∃ x, w.getLast? = some x := by
          have := List.getLast?_isSome.mpr hwne
          cases hwlx : w.getLast? with
          | none => rw [hwlx] at this; simp at this
          | some x => exact ⟨x, rfl⟩
        rw [List.getLast?_append, hwl] at ha
        simp only [Option.or] at ha
        rw [Option.some.injEq] at ha
        obtain rfl : wl = a := ha
        exact hwchars wl (List.mem_of_mem_getLast? (by simp [hwl]))
      · have hle : current.length + w.length + 1 ≤ MAX_TEXT_LENGTH := Nat.le_of_not_lt hlen
        simp only [List.length_append, List.length_cons, List.length_nil]
        omega

theorem splitText_foldl_invariant (W : List Str) (ws : List Str)
    (hws : ∀ w ∈ ws, w ≠ [] ∧ (∀ c ∈ w, c.isWhitespace = false) ∧ w ∈ W) :
    ∀ (chunks : List Str) (current : Str),
      (∀ c ∈ chunks, chunkOK W c) → currentOK W current →
      (∀ c ∈ (ws.foldl splitTextStep (chunks, current)).1, chunkOK W c) ∧
        currentOK W (ws.foldl splitTextStep (chunks, current)).2 := by
  induction ws with
  | nil => intro chunks current hc hcur; exact ⟨hc, hcur⟩
  | cons w ws ih =>
    intro chunks current hc hcur
    rw [List.foldl_cons]
    obtain ⟨h1, h2⟩ :=
      splitTextStep_preserves W chunks current w (hws w (by simp)) hc hcur
    exact ih (fun x hx => hws x (by simp [hx]))
      (splitTextStep (chunks, current) w).1 (splitTextStep (chunks, current) w).2 h1 h2

theorem splitWhitespaceAux_nil_of_all_ws (t : Str) (h : ∀ c ∈ t, c.isWhitespace = true) :
    splitWhitespaceAux t [] = [] := by
  induction t with
  | nil => rfl
  | cons c cs ih =>
    rw [splitWhitespaceAux, if_pos (h c (by simp)), if_pos rfl]
    exact ih (fun a ha => h a (by simp [ha]))

/-- A text consisting only of whitespace has no words. -/
theorem splitWhitespace_nil_of_all_ws (t : Str) (h : ∀ c ∈ t, c.isWhitespace = true) :
    splitWhitespace t = [] :=
  splitWhitespaceAux_nil_of_all_ws t h

example : split_text [' ', 'a'] = [[' ', 'a']] := by decide

example : splitWhitespace [' ', 'a', 'b', ' ', 'c'] = [['a', 'b'], ['c']] := by decide

example : split_text (List.replicate 201 ' ') = [] := by decide

example :
    split_text (List.replicate 150 'a' ++ ' ' :: List.replicate 150 'b') =
      [List.replicate 150 'a', List.replicate 150 'b'] := by decide

/-- Claim C3: every chunk returned by `split_text` has length at most
`MAX_TEXT_LENGTH` (200), except a chunk consisting of a single
whitespace-delimited word of the input whose own length exceeds
`MAX_TEXT_LENGTH`; such an oversized word is emitted as its own chunk,
never split further. -/
theorem split_text_chunk_length_bound (text : Str) (c : Str)
    (hmem : c ∈ split_text text) :
    c.length ≤ MAX_TEXT_LENGTH ∨
      (c ∈ splitWhitespace text ∧ MAX_TEXT_LENGTH < c.length) := by
  by_cases hlen : text.length ≤ MAX_TEXT_LENGTH
  · rw [split_text, if_pos hlen] at hmem
    have hc : c = text := by simpa using hmem
    subst hc
    exact Or.inl hlen
  · rw [split_text, if_neg hlen] at hmem
    have hws := splitWhitespace_words text
    have hinv := splitText_foldl_invariant (splitWhitespace text) (splitWhitespace text)
      (fun w hw => ⟨(hws w hw).1, (hws w hw).2, hw⟩) [] []
      (by intro x hx; simp at hx) (Or.inl rfl)
    set st := (splitWhitespace text).foldl splitTextStep ([], ([] : Str)) with hst
    by_cases h2 : st.2 = []
    · rw [if_pos h2] at hmem
      exact hinv.1 c hmem
    · rw [if_neg h2] at hmem
      rcases List.mem_append.mp hmem with hcm | hcm
      · exact hinv.1 c hcm
      · have hc : c = trim st.2 := by simpa using hcm
        subst hc
        rcases hinv.2 with h2' | ⟨hh, hl, hck⟩
        · exact absurd h2' h2
        · rw [trim_eq_self st.2 hh hl]
          exact hck

theorem split_text_chunk_length_bound_witness :
    (['h', 'i'] : Str) ∈ split_text ['h', 'i'] ∧
      ((['h', 'i'] : Str).length ≤ MAX_TEXT_LENGTH ∨
        ((['h', 'i'] : Str) ∈ splitWhitespace ['h', 'i'] ∧
          MAX_TEXT_LENGTH < (['h', 'i'] : Str).length)) :=
  ⟨by decide, split_text_chunk_length_bound ['h', 'i'] ['h', 'i'] (by decide)⟩

/-- Claim C4 as stated is false at the input `" a"`: `split_text` returns the
short input unchanged (`main.rs` never reaches the trimming loop for a text
of length at most 200), not trimmed. -/
theorem split_text_short_input_not_trimmed :
    ([' ', 'a'] : Str).length ≤ MAX_TEXT_LENGTH ∧
      split_text [' ', 'a'] ≠ [trim [' ', 'a']] := by decide

/-- Claim C4 (amended): for every text of length at most `MAX_TEXT_LENGTH`
(200), `split_text` returns exactly one chunk equal to the input itself
(unchanged, not trimmed); in particular re-splitting the returned chunk
yields the same single chunk. -/
theorem split_text_short_input_returned_unchanged (text : Str)
    (h : text.length ≤ MAX_TEXT_LENGTH) :
    split_text text = [text] ∧ ∀ c ∈ split_text text, split_text c = [c] := by
  have h1 : split_text text = [text] := by rw [split_text, if_pos h]
  refine ⟨h1, ?_⟩
  intro c hc
  rw [h1] at hc
  have hc' : c = text := by simpa using hc
  subst hc'
  exact h1

theorem split_text_short_input_returned_unchanged_witness :
    (['h'] : Str).length ≤ MAX_TEXT_LENGTH ∧
      (split_text ['h'] = [['h']] ∧ ∀ c ∈ split_text ['h'], split_text c = [c]) :=
  ⟨by decide, split_text_short_input_returned_unchanged ['h'] (by decide)⟩

/-- Claim C10: `split_text` does not always return at least one chunk: every
text longer than `MAX_TEXT_LENGTH` (200) that consists only of whitespace
yields the empty chunk list, whereas every text of length at most 200 yields
exactly one chunk. -/
theorem split_text_whitespace_only_empty :
    (∀ t : Str, MAX_TEXT_LENGTH < t.length → (∀ c ∈ t, c.isWhitespace = true) →
        split_text t = []) ∧
      (∀ t : Str, t.length ≤ MAX_TEXT_LENGTH → (split_text t).length = 1) := by
  constructor
  · intro t hlen hws
    rw [split_text, if_neg (by omega), splitWhitespace_nil_of_all_ws t hws]
    rfl
  · intro t hlen
    rw [split_text, if_pos hlen]
    rfl

theorem split_text_whitespace_only_empty_witness :
    split_text (List.replicate 201 ' ') = [] ∧ (split_text ['a']).length = 1 :=
  ⟨split_text_whitespace_only_empty.1 (List.replicate 201 ' ') (by decide) (by decide),
    split_text_whitespace_only_empty.2 ['a'] (by decide)⟩

/-- Claim C5: the permission check grants access iff the user has the
broadcaster role, or (subscriber or founder role and the `subs` flag), or
(VIP role and the `vips` flag), or (moderator role and the `mods` flag);
in particular a user whose only badge is `subscriber` is allowed exactly when
`subs` is set, and a user holding the `broadcaster` badge is allowed
regardless of all flags. -/
theorem permission_check_iff :
    (∀ (badges : List String) (roles : PermitedRoles),
      has_permission badges roles = true ↔
        ("broadcaster" ∈ badges ∨
          (("subscriber" ∈ badges ∨ "founder" ∈ badges) ∧ roles.subs = true) ∨
          ("vip" ∈ badges ∧ roles.vips = true) ∨
          ("moderator" ∈ badges ∧ roles.mods = true))) ∧
      (∀ roles : PermitedRoles, has_permission ["subscriber"] roles = roles.subs) ∧
      (∀ (badges : List String) (roles : PermitedRoles),
        "broadcaster" ∈ badges → has_permission badges roles = true) := by
  have hmain : ∀ (badges : List String) (roles : PermitedRoles),
      has_permission badges roles = true ↔
        ("broadcaster" ∈ badges ∨
          (("subscriber" ∈ badges ∨ "founder" ∈ badges) ∧ roles.subs = true) ∨
          ("vip" ∈ badges ∧ roles.vips = true) ∨
          ("moderator" ∈ badges ∧ roles.mods = true)) := by
    intro badges roles
    rw [has_permission, List.any_eq_true]
    simp only [badge_allows, Bool.or_eq_true, Bool.and_eq_true, beq_iff_eq]
    constructor
    · rintro ⟨b, hb, (((⟨h1 | h1, h2⟩ | ⟨h1, h2⟩) | ⟨h1, h2⟩) | h1)⟩ <;> subst h1
      · exact Or.inr (Or.inl ⟨Or.inl hb, h2⟩)
      · exact Or.inr (Or.inl ⟨Or.inr hb, h2⟩)
      · exact Or.inr (Or.inr (Or.inl ⟨hb, h2⟩))
      · exact Or.inr (Or.inr (Or.inr ⟨hb, h2⟩))
      · exact Or.inl hb
    · rintro (hb | ⟨hb | hb, h2⟩ | ⟨hb, h2⟩ | ⟨hb, h2⟩)
      · exact ⟨"broadcaster", hb, Or.inr rfl⟩
      · exact ⟨"subscriber", hb, Or.inl (Or.inl (Or.inl ⟨Or.inl rfl, h2⟩))⟩
      · exact ⟨"founder", hb, Or.inl (Or.inl (Or.inl ⟨Or.inr rfl, h2⟩))⟩
      · exact ⟨"vip", hb, Or.inl (Or.inl (Or.inr ⟨rfl, h2⟩))⟩
      · exact ⟨"moderator", hb, Or.inl (Or.inr ⟨rfl, h2⟩)⟩
  refine ⟨hmain, ?_, ?_⟩
  · intro roles
    cases hs : roles.subs <;>
      simp [has_permission, badge_allows, hs]
  · intro badges roles hb
    rw [has_permission, List.any_eq_true]
    refine ⟨"broadcaster", hb, ?_⟩
    simp [badge_allows]

theorem permission_check_iff_witness :
    "broadcaster" ∈ ["broadcaster"] ∧
      has_permission ["broadcaster"] ⟨false, false, false⟩ = true :=
  ⟨by decide,
    permission_check_iff.2.2 ["broadcaster"] ⟨false, false, false⟩ (by decide)⟩

theorem foldl_add_queue (items : List TTSQueueItem) :
    ∀ s : TTSQueueState, (items.foldl add s).queue = s.queue ++ items := by
  induction items with
  | nil => intro s; simp
  | cons x xs ih =>
    intro s
    rw [List.foldl_cons, ih]
    simp [add]

theorem pops_of_queue (l : List TTSQueueItem) :
    ∀ s : TTSQueueState, s.queue = l → pops s l.length = l := by
  induction l with
  | nil => intro s _; rfl
  | cons x xs ih =>
    intro s hs
    have hpop : pop s = (some x, { s with queue := xs }) := by simp [pop, hs]
    rw [List.length_cons, pops, hpop]
    exact congrArg (x :: ·) (ih { s with queue := xs } rfl)

/-- Claim C8: the `PlaybackQueue` is FIFO: starting from an empty queue, any
sequence of `add` operations with no interleaved removals is returned by
successive `pop` calls in exactly insertion order, and `pop` on an empty
queue returns the empty result. -/
theorem playback_queue_fifo (s : TTSQueueState) (items : List TTSQueueItem)
    (h : s.queue = []) :
    pops (items.foldl add s) items.length = items ∧ pop s = (none, s) := by
  constructor
  · apply pops_of_queue
    rw [foldl_add_queue, h]
    rfl
  · simp [pop, h]

theorem playback_queue_fifo_witness :
    pops ([itemA, itemB, itemC].foldl add TTSQueueState.new) 3 = [itemA, itemB, itemC] ∧
      pop TTSQueueState.new = (none, TTSQueueState.new) :=
  playback_queue_fifo TTSQueueState.new [itemA, itemB, itemC] rfl

/-- Claim C9: `skip_current()` is extensionally equal to `pop()`: it removes
and returns the head of the pending queue (the empty result when the queue is
empty) and modifies nothing else — not the currently-playing slot, not the
cancellation flag, not the ignore list. -/
theorem skip_current_refines_pop (s : TTSQueueState) :
    skip_current s = pop s ∧
      (skip_current s).1 = s.queue.head? ∧
      (skip_current s).2.queue = s.queue.tail ∧
      (skip_current s).2.ignored_users = s.ignored_users ∧
      (skip_current s).2.currently_playing = s.currently_playing ∧
      (skip_current s).2.skip = s.skip := by
  refine ⟨rfl, ?_⟩
  cases h : s.queue <;> simp [skip_current, pop, h]

theorem ttsPlayerStep_play (s : TTSQueueState) (env : PlaybackEnv)
    (item : TTSQueueItem) (rest : List TTSQueueItem)
    (hq : s.queue = item :: rest)
    (hig : is_user_ignored s item.request.username = false) :
    ttsPlayerStep s env =
      ({ s with queue := rest, currently_playing := none, skip := false },
        SchedEvent.setPlaying item :: SchedEvent.emitSnapshot (item :: rest) ::
          ((if env.streamOpens then playChunks env s.skip 0 item.audio_chunks.length
            else [SchedEvent.streamOpenFailed]) ++
            [SchedEvent.clearSkipFlag, SchedEvent.clearPlaying,
              SchedEvent.emitSnapshot rest])) := by
  have hpop : pop s = (some item, { s with queue := rest }) := by simp [pop, hq]
  have hig' : is_user_ignored { s with queue := rest } item.request.username = false := hig
  rw [ttsPlayerStep, hpop]
  simp [hig', set_currently_playing, clear_skip, get_all_with_current]

theorem ttsPlayerStep_ignored (s : TTSQueueState) (env : PlaybackEnv)
    (item : TTSQueueItem) (rest : List TTSQueueItem)
    (hq : s.queue = item :: rest)
    (hig : is_user_ignored s item.request.username = true) :
    ttsPlayerStep s env =
      ({ s with queue := rest }, [SchedEvent.logIgnored item.request.username]) := by
  have hpop : pop s = (some item, { s with queue := rest }) := by simp [pop, hq]
  have hig' : is_user_ignored { s with queue := rest } item.request.username = true := hig
  rw [ttsPlayerStep, hpop]
  simp [hig']

theorem playChunks_no_clearSkip (env : PlaybackEnv) (flag0 : Bool) :
    ∀ (k i : Nat), SchedEvent.clearSkipFlag ∉ playChunks env flag0 i k := by
  intro k
  induction k with
  | zero => intro i; simp [playChunks]
  | succ k ih =>
    intro i
    rw [playChunks]
    by_cases h1 : (flag0 || env.skipPre i) = true
    · simp [h1]
    · by_cases h2 : env.decodeOk i = true
      · by_cases h3 : env.skipDuring i = true
        · simp [h1, h2, h3]
        · simp [h1, h2, h3, ih]
      · simp [h1, h2, ih]

theorem playChunks_all_finished (env : PlaybackEnv)
    (hpre : ∀ i, env.skipPre i = false)
    (hdur : ∀ i, env.skipDuring i = false)
    (hdec : ∀ i, env.decodeOk i = true) :
    ∀ (k i j : Nat), j < k →
      SchedEvent.chunkFinished (i + j) ∈ playChunks env false i k := by
  intro k
  induction k with
  | zero => intro i j h; omega
  | succ k ih =>
    intro i j hj
    rw [playChunks, if_neg (by simp [hpre i]), if_pos (hdec i), if_neg (by simp [hdur i])]
    cases j with
    | zero => exact List.mem_cons_of_mem _ (List.mem_cons_self _ _)
    | succ j =>
      have hmem := ih (i + 1) j (by omega)
      have hidx : i + (j + 1) = (i + 1) + j := by omega
      rw [hidx]
      exact List.mem_cons_of_mem _ (List.mem_cons_of_mem _ hmem)

/-- Claim C6: after the scheduler finishes or abandons playback of an item
(whatever the playback outcome, including when no skip was requested), it
clears the cancellation flag exactly once before dequeuing the next item;
consequently a skip requested during one item never suppresses playback of
the following item: the next non-ignored item, played with no skip request,
has every one of its chunks finish. -/
theorem scheduler_clears_skip_flag_per_item (s : TTSQueueState) (env : PlaybackEnv)
    (item : TTSQueueItem) (rest : List TTSQueueItem)
    (hq : s.queue = item :: rest)
    (hig : is_user_ignored s item.request.username = false) :
    ((ttsPlayerStep s env).2.count SchedEvent.clearSkipFlag = 1) ∧
      ((ttsPlayerStep s env).1.skip = false) ∧
      (∀ (env2 : PlaybackEnv) (item2 : TTSQueueItem) (rest2 : List TTSQueueItem),
        (ttsPlayerStep s env).1.queue = item2 :: rest2 →
        is_user_ignored (ttsPlayerStep s env).1 item2.request.username = false →
        env2.streamOpens = true →
        (∀ i, env2.skipPre i = false) →
        (∀ i, env2.skipDuring i = false) →
        (∀ i, env2.decodeOk i = true) →
        ∀ i, i < item2.audio_chunks.length →
          SchedEvent.chunkFinished i ∈ (ttsPlayerStep (ttsPlayerStep s env).1 env2).2) := by
  rw [ttsPlayerStep_play s env item rest hq hig]
  refine ⟨?_, rfl, ?_⟩
  · rw [List.count_cons, List.count_cons, List.count_append]
    have h0 : (if env.streamOpens then playChunks env s.skip 0 item.audio_chunks.length
        else [SchedEvent.streamOpenFailed]).count SchedEvent.clearSkipFlag = 0 := by
      by_cases ho : env.streamOpens
      · rw [if_pos ho]
        exact List.count_eq_zero.mpr (playChunks_no_clearSkip env s.skip _ 0)
      · rw [if_neg ho]
        decide
    rw [h0]
    simp [List.count_cons, List.count_nil]
  · intro env2 item2 rest2 hq2 hig2 hopen hpre hdur hdec i hi
    rw [ttsPlayerStep_play _ env2 item2 rest2 hq2 hig2]
    have hmem := playChunks_all_finished env2 hpre hdur hdec item2.audio_chunks.length 0 i hi
    rw [Nat.zero_add] at hmem
    refine List.mem_cons_of_mem _ (List.mem_cons_of_mem _ (List.mem_append_left _ ?_))
    rw [if_pos hopen]
    exact hmem

theorem scheduler_clears_skip_flag_per_item_witness :
    (ttsPlayerStep twoItemState quietEnv).2.count SchedEvent.clearSkipFlag = 1 ∧
      (ttsPlayerStep twoItemState quietEnv).1.skip = false :=
  ⟨(scheduler_clears_skip_flag_per_item twoItemState quietEnv itemA [itemB] rfl rfl).1,
    (scheduler_clears_skip_flag_per_item twoItemState quietEnv itemA [itemB] rfl rfl).2.1⟩

/-- Claim C7: an item whose requesting username is on the ignore list at
dequeue time is discarded by the scheduler without ever being set as
currently-playing and without any state snapshot being emitted, and the loop
continues with the remaining queue. -/
theorem scheduler_discards_ignored_item (s : TTSQueueState) (env : PlaybackEnv)
    (item : TTSQueueItem) (rest : List TTSQueueItem)
    (hq : s.queue = item :: rest)
    (hig : is_user_ignored s item.request.username = true) :
    ttsPlayerStep s env =
        ({ s with queue := rest }, [SchedEvent.logIgnored item.request.username]) ∧
      (∀ l, SchedEvent.emitSnapshot l ∉ (ttsPlayerStep s env).2) ∧
      (∀ it, SchedEvent.setPlaying it ∉ (ttsPlayerStep s env).2) ∧
      (ttsPlayerStep s env).1.currently_playing = s.currently_playing ∧
      (ttsPlayerStep s env).1.queue = rest := by
  have h := ttsPlayerStep_ignored s env item rest hq hig
  rw [h]
  refine ⟨rfl, ?_, ?_, rfl, rfl⟩
  · intro l hl
    simp at hl
  · intro it hit
    simp at hit

theorem scheduler_discards_ignored_item_witness :
    ttsPlayerStep ignoredHeadState quietEnv =
        ({ ignoredHeadState with queue := [itemB] },
          [SchedEvent.logIgnored itemA.request.username]) ∧
      (ttsPlayerStep ignoredHeadState quietEnv).1.currently_playing = none :=
  ⟨(scheduler_discards_ignored_item ignoredHeadState quietEnv itemA [itemB] rfl rfl).1,
    (scheduler_discards_ignored_item ignoredHeadState quietEnv itemA [itemB] rfl rfl).2.2.2.1⟩

theorem ttsPipelineGo_items (req : TTSRequest) (cc : Nat)
    (fetch : Nat → Option (List Nat)) :
    ∀ (cs : List Str) (i : Nat),
      (ttsPipelineGo req cc fetch i cs).1 =
        (List.enumFrom i cs).filterMap
          (fun p => (fetch p.1).map (mkChunkItem req cc p.1 p.2)) := by
  intro cs
  induction cs with
  | nil => intro i; rfl
  | cons c cs ih =>
    intro i
    rw [List.enumFrom_cons, List.filterMap_cons, ttsPipelineGo]
    cases hf : fetch i <;> simp [hf, ih]

theorem ttsPipelineGo_failure_events (req : TTSRequest) (cc : Nat)
    (fetch : Nat → Option (List Nat)) :
    ∀ (cs : List Str) (i0 i : Nat), i0 ≤ i → i < i0 + cs.length → fetch i = none →
      PipelineEvent.logChunkError i ∈ (ttsPipelineGo req cc fetch i0 cs).2 ∧
        PipelineEvent.notifyUIError i ∈ (ttsPipelineGo req cc fetch i0 cs).2 := by
  intro cs
  induction cs with
  | nil =>
    intro i0 i h1 h2 _
    simp at h2
    omega
  | cons c cs ih =>
    intro i0 i h1 h2 hf
    by_cases he : i = i0
    · subst he
      rw [ttsPipelineGo, hf]
      simp
    · have h2' : i < (i0 + 1) + cs.length := by
        simp only [List.length_cons] at h2
        omega
      obtain ⟨ha, hb⟩ := ih (i0 + 1) i (by omega) h2' hf
      rw [ttsPipelineGo]
      cases hfi : fetch i0 <;> simp [ha, hb]

/-- Claim C1 as stated is false: for an accepted request whose text splits
into two chunks, with synthesis succeeding on both, the pipeline task of
`main.rs:354-430` pushes two `TTSQueueItem`s (one per chunk, see the comment
`Process each chunk as a separate queue item` at `main.rs:360`), not exactly
one item holding both audio chunks. -/
theorem tts_pipeline_two_items_for_two_chunks :
    (ttsPipeline twoChunkReq fetchAlways).1.length = 2 ∧
      (ttsPipeline twoChunkReq fetchAlways).1.length ≠ 1 := by decide

/-- Claim C1 (amended): for every accepted TTS request, the pipeline pushes
one `TTSQueueItem` per successfully synthesized chunk — in the exact order of
the `split_text` split — and each pushed item carries exactly one audio
chunk; a single-chunk request therefore yields exactly one item. -/
theorem tts_pipeline_item_per_successful_chunk (req : TTSRequest)
    (fetch : Nat → Option (List Nat)) :
    (ttsPipeline req fetch).1 =
      (List.enumFrom 0 (split_text req.text)).filterMap
        (fun p => (fetch p.1).map (mkChunkItem req (split_text req.text).length p.1 p.2)) ∧
      ∀ it ∈ (ttsPipeline req fetch).1, it.audio_chunks.length = 1 := by
  have h1 : (ttsPipeline req fetch).1 =
      (List.enumFrom 0 (split_text req.text)).filterMap
        (fun p => (fetch p.1).map (mkChunkItem req (split_text req.text).length p.1 p.2)) :=
    ttsPipelineGo_items req (split_text req.text).length fetch (split_text req.text) 0
  refine ⟨h1, ?_⟩
  intro it hit
  rw [h1] at hit
  obtain ⟨p, _, hfp⟩ := List.mem_filterMap.mp hit
  cases hf : fetch p.1 with
  | none => rw [hf] at hfp; simp at hfp
  | some a =>
    rw [hf] at hfp
    have : mkChunkItem req (split_text req.text).length p.1 p.2 a = it := by
      simpa using hfp
    rw [← this]
    rfl

theorem tts_pipeline_item_per_successful_chunk_witness :
    (ttsPipeline twoChunkReq fetchAlways).1 =
      (List.enumFrom 0 (split_text twoChunkReq.text)).filterMap
        (fun p => (fetchAlways p.1).map
          (mkChunkItem twoChunkReq (split_text twoChunkReq.text).length p.1 p.2)) ∧
      ∀ it ∈ (ttsPipeline twoChunkReq fetchAlways).1, it.audio_chunks.length = 1 :=
  tts_pipeline_item_per_successful_chunk twoChunkReq fetchAlways

/-- Claim C2: when synthesis of one chunk fails, the pipeline logs the error
and notifies the UI collaborator, still attempts (and on success pushes)
every later chunk of the same request, and the request completes with
exactly the successfully synthesized chunks in original split order rather
than being aborted. -/
theorem tts_pipeline_continues_after_chunk_failure (req : TTSRequest)
    (fetch : Nat → Option (List Nat)) (i : Nat)
    (hi : i < (split_text req.text).length) (hf : fetch i = none) :
    PipelineEvent.logChunkError i ∈ (ttsPipeline req fetch).2 ∧
      PipelineEvent.notifyUIError i ∈ (ttsPipeline req fetch).2 ∧
      (∀ (j : Nat) (c : Str) (a : List Nat),
        (split_text req.text)[j]? = some c → fetch j = some a →
        mkChunkItem req (split_text req.text).length j c a ∈ (ttsPipeline req fetch).1) ∧
      (ttsPipeline req fetch).1 =
        (List.enumFrom 0 (split_text req.text)).filterMap
          (fun p => (fetch p.1).map
            (mkChunkItem req (split_text req.text).length p.1 p.2)) := by
  have hev := ttsPipelineGo_failure_events req (split_text req.text).length fetch
    (split_text req.text) 0 i (Nat.zero_le i) (by omega) hf
  have h1 : (ttsPipeline req fetch).1 =
      (List.enumFrom 0 (split_text req.text)).filterMap
        (fun p => (fetch p.1).map (mkChunkItem req (split_text req.text).length p.1 p.2)) :=
    ttsPipelineGo_items req (split_text req.text).length fetch (split_text req.text) 0
  refine ⟨hev.1, hev.2, ?_, h1⟩
  intro j c a hjc hja
  rw [h1]
  apply List.mem_filterMap.mpr
  refine ⟨(j, c), ?_, ?_⟩
  · apply List.getElem?_mem (n := j)
    rw [List.getElem?_enumFrom, hjc]
    simp
  · rw [hja]
    rfl

theorem tts_pipeline_continues_after_chunk_failure_witness :
    PipelineEvent.logChunkError 0 ∈ (ttsPipeline twoChunkReq fetchFailFirst).2 ∧
      PipelineEvent.notifyUIError 0 ∈ (ttsPipeline twoChunkReq fetchFailFirst).2 :=
  ⟨(tts_pipeline_continues_after_chunk_failure twoChunkReq fetchFailFirst 0
      (by decide) rfl).1,
    (tts_pipeline_continues_after_chunk_failure twoChunkReq fetchFailFirst 0
      (by decide) rfl).2.1⟩

end Yambot
